import Mathlib

/-!
Shallow embedding of the `rwb` package (`rwb.go`): a `ResponseWriterBuffer`
that intercepts header, status and body writes meant for an underlying
`http.ResponseWriter` (the sink) and reconciles them into the sink on `Flush`.

Headers (`http.Header`, a Go `map[string][]string`) are modelled as
association lists `List (String × List String)`.  Go map iteration order is
unspecified, so list order stands for one admissible iteration order; Go map
states never contain duplicate keys, which the well-formedness predicates
below capture when a proof needs it.  `Header.Add`, `Header.Del` and
`Header.Values` canonicalize their key argument exactly as
`textproto.CanonicalMIMEHeaderKey` does, while a raw map index expression
such as `rw.header[key]` looks the key up verbatim.
-/

/-- `validHeaderFieldByte` from `net/textproto`: the RFC 7230 token
characters (letters, digits and `!#$%&'*+-.^_|~` plus the apostrophe,
code 39, and the backtick, code 96). -/
def isTokenChar (c : Char) : Bool :=
  c.isAlpha || c.isDigit ||
  c == ('!') || c == ('#') || c == ('$') || c == ('%') || c == ('&') ||
  c.toNat == 39 || c == ('*') || c == ('+') || c == ('-') || c == ('.') ||
  c == ('^') || c == ('_') || c.toNat == 96 || c == ('|') || c == ('~')

/-- The rewriting loop of `textproto.canonicalMIMEHeaderKey`: uppercase a
letter at the start or after a hyphen, lowercase every other letter. -/
def canonAux : Bool → List Char → List Char
  | _, [] => []
  | upper, c :: rest =>
    let c2 := if upper && c.isLower then c.toUpper
      else if (!upper) && c.isUpper then c.toLower else c
    c2 :: canonAux (c2 == ('-')) rest

/-- `textproto.CanonicalMIMEHeaderKey`: keys containing a byte that is not a
valid header-field byte are returned unchanged, all other keys are rewritten
to canonical `Xxx-Yyy` capitalization.  (The Go fast path that returns an
already-canonical key unchanged, and the `commonHeader` interning table, are
semantically the identity and are not modelled.) -/
def canonicalMIMEHeaderKey (s : String) : String :=
  if s.data.all isTokenChar then ⟨canonAux true s.data⟩ else s

/-- A Go `http.Header` / `map[string][]string` state, as an association
list (one admissible iteration order of the map). -/
abbrev HeaderMap := List (String × List String)

/-- Raw map indexing `h[key]`: exact string lookup, no canonicalization. -/
def hLookup (key : String) : HeaderMap → Option (List String)
  | [] => none
  | e :: rest => if e.1 = key then some e.2 else hLookup key rest

/-- The keys of a header map state. -/
def hKeys (h : HeaderMap) : List String := h.map (fun e => e.1)

/-- `delete(h, ck)` on the map: drop the entry whose key is `ck`. -/
def eraseKey (ck : String) : HeaderMap → HeaderMap
  | [] => []
  | e :: rest => if e.1 = ck then eraseKey ck rest else e :: eraseKey ck rest

/-- `http.Header.Del(key)`: `delete(h, CanonicalMIMEHeaderKey(key))`. -/
def headerDel (h : HeaderMap) (key : String) : HeaderMap :=
  eraseKey (canonicalMIMEHeaderKey key) h

/-- `http.Header.Values(key)`: the value slice stored under the canonical
key, the empty slice when the key is absent (a nil slice in Go). -/
def headerValues (h : HeaderMap) (key : String) : List String :=
  (hLookup (canonicalMIMEHeaderKey key) h).getD []

/-- `h[ck] = append(h[ck], v)`: append to an existing entry in place, or
insert a fresh entry for `ck` (at the end, standing for map insertion). -/
def addEntry (ck v : String) : HeaderMap → HeaderMap
  | [] => [(ck, [v])]
  | e :: rest => if e.1 = ck then (e.1, e.2 ++ [v]) :: rest else e :: addEntry ck v rest

/-- `http.Header.Add(key, value)`: append `value` under the canonical key. -/
def headerAdd (h : HeaderMap) (key value : String) : HeaderMap :=
  addEntry (canonicalMIMEHeaderKey key) value h

/-- The error values `Flush`/`Write` can return: the package's own
`ErrBufferClosed`, or an error passed through unchanged from the sink's
`Write` (tagged with the sink error's identity). -/
inductive RWBError
  | bufferClosed
  | sink (e : Nat)
  deriving Repr, DecidableEq

/-- The underlying `http.ResponseWriter` (the sink): its live header map,
the status codes written to it, the body writes it received, and whether its
`Write` currently fails (`failWrite = some e` makes the next body write
return error `e` and write nothing). -/
structure Sink where
  header : HeaderMap
  status : List Int
  body : List (List Nat)
  failWrite : Option Nat
  deriving Repr, DecidableEq

/-- The sink's `Write(p) (int, error)`: on failure the sink is unchanged
and its error is returned; on success the payload is recorded and its
length reported. -/
def Sink.write (s : Sink) (p : List Nat) : Sink × Nat × Option RWBError :=
  match s.failWrite with
  | some e => (s, 0, some (RWBError.sink e))
  | none => ({ s with body := s.body ++ [p] }, p.length, none)

/-- `ResponseWriterBuffer`: the buffer's local header clone, the single
cached body payload (`bytes.Buffer` contents), the stored status code
(0 = unset), and the closed flag. -/
structure ResponseWriterBuffer where
  header : HeaderMap
  body : List Nat
  statusCode : Int
  closed : Bool
  deriving Repr, DecidableEq

/-- `New(w)`: clone the sink's current header map (`w.Header().Clone()` is
a deep copy, which value semantics gives for free), empty body, status 0;
`closed` is the Go zero value `false`. -/
def New (s : Sink) : ResponseWriterBuffer :=
  { header := s.header, body := [], statusCode := 0, closed := false }

/-- `(rw).Header()`: the buffer's local header map, returned by reference
(mutation of the returned handle is modelled by replacing the field). -/
def ResponseWriterBuffer.Header (rw : ResponseWriterBuffer) : HeaderMap :=
  rw.header

/-- `(rw).Write(body)`: fail when closed; otherwise `Reset` the cache and
store only this payload (`bytes.Buffer.Write` reports `len(body), nil`). -/
def ResponseWriterBuffer.Write (rw : ResponseWriterBuffer) (body : List Nat) :
    ResponseWriterBuffer × Nat × Option RWBError :=
  if rw.closed then (rw, 0, some RWBError.bufferClosed)
  else ({ rw with body := body }, body.length, none)

/-- `(rw).WriteHeader(statusCode)`: store the code, touch nothing else. -/
def ResponseWriterBuffer.WriteHeader (rw : ResponseWriterBuffer) (statusCode : Int) :
    ResponseWriterBuffer :=
  { rw with statusCode := statusCode }

/-- One step of the deletion loop of `Flush`: for a sink key, if the raw
lookup `rw.header[key]` misses, `actualHeader.Del(key)`. -/
def delStep (localh : HeaderMap) (acc : HeaderMap) (key : String) : HeaderMap :=
  if (hLookup key localh).isSome then acc else headerDel acc key

/-- The first loop of `Flush`: `for key := range actualHeader { if _, ok :=
rw.header[key]; !ok { actualHeader.Del(key) } }`.  Folding over the
original key list is equivalent to Go's in-loop deletion: a deleted key
that the fold still visits is only re-deleted (a no-op), because `Del`
removes exactly the canonical form of its argument. -/
def deletePhase (localh sinkh : HeaderMap) : HeaderMap :=
  (hKeys sinkh).foldl (delStep localh) sinkh

/-- The body of the copy loop of `Flush` for one (key, value) pair: skip
when the value already occurs in `actualHeader.Values(key)`, else
`actualHeader.Add(key, value)`. -/
def addOne (acc : HeaderMap) (key value : String) : HeaderMap :=
  if value ∈ headerValues acc key then acc else headerAdd acc key value

/-- The copy loop of `Flush` over the value slice of one local entry. -/
def addVals (acc : HeaderMap) (key : String) (vs : List String) : HeaderMap :=
  vs.foldl (fun acc2 v => addOne acc2 key v) acc

/-- The second loop of `Flush`: `for key, values := range rw.header`,
copying each missing value into the sink's header map. -/
def addPhase (localh h : HeaderMap) : HeaderMap :=
  localh.foldl (fun acc e => addVals acc e.1 e.2) h

/-- The whole header reconciliation performed by `Flush` (lines 60-82 of
`rwb.go`): the deletion loop followed by the copy loop. -/
def reconcileHeader (localh sinkh : HeaderMap) : HeaderMap :=
  addPhase localh (deletePhase localh sinkh)

/-- `(rw).Flush()` against sink `s`: fail when closed; otherwise reconcile
headers, apply a non-zero stored status code, write the cached body in one
call, and only on a successful body write mark the buffer closed and
report the byte count the sink returned. -/
def ResponseWriterBuffer.Flush (rw : ResponseWriterBuffer) (s : Sink) :
    ResponseWriterBuffer × Sink × Nat × Option RWBError :=
  if rw.closed then (rw, s, 0, some RWBError.bufferClosed)
  else
    let s1 : Sink := { s with header := reconcileHeader rw.header s.header }
    let s2 : Sink :=
      if rw.statusCode ≠ 0 then { s1 with status := s1.status ++ [rw.statusCode] } else s1
    match s2.write rw.body with
    | (s3, _, some e) => (rw, s3, 0, some e)
    | (s3, n, none) => ({ rw with closed := true }, s3, n, none)

/-- The operations callable on a buffer after construction.  `setHeader h`
models the caller mutating the header map handle returned by `Header()`
into the state `h`; the other constructors are the buffer's methods. -/
inductive Op
  | write (p : List Nat)
  | writeHeader (c : Int)
  | setHeader (h : HeaderMap)
  | flush
  deriving Repr, DecidableEq

/-- Run one operation on the pair (buffer, sink), discarding return
values.  Only `flush` ever touches the sink, exactly as in the source,
where `Header`, `Write` and `WriteHeader` never mention `rw.ResponseWriter`. -/
def applyOp (st : ResponseWriterBuffer × Sink) (op : Op) : ResponseWriterBuffer × Sink :=
  match op with
  | Op.write p => ((st.1.Write p).1, st.2)
  | Op.writeHeader c => (st.1.WriteHeader c, st.2)
  | Op.setHeader h => ({ st.1 with header := h }, st.2)
  | Op.flush =>
    let r := st.1.Flush st.2
    (r.1, r.2.1)

/-- Run a sequence of operations on the pair (buffer, sink). -/
def runOps (st : ResponseWriterBuffer × Sink) (ops : List Op) : ResponseWriterBuffer × Sink :=
  ops.foldl applyOp st

/-- All keys of a header map state are canonical, as every state built via
`Header.Add`/`Header.Set`/`Header.Del`/`Clone` is. -/
def canonKeys (h : HeaderMap) : Prop :=
  ∀ e ∈ h, canonicalMIMEHeaderKey e.1 = e.1

/-- The keys of a header map state are pairwise distinct, as in every
state that represents an actual Go map. -/
def keysNodup (h : HeaderMap) : Prop := (hKeys h).Nodup

instance (h : HeaderMap) : Decidable (canonKeys h) := by
  unfold canonKeys; infer_instance

instance (h : HeaderMap) : Decidable (keysNodup h) := by
  unfold keysNodup; infer_instance

/-- One deduplication step of the value merge: append the value unless it
is already present. -/
def mergeStep (ws : List String) (v : String) : List String :=
  if v ∈ ws then ws else ws ++ [v]

/-- The net value merge `Flush` performs for one key: starting from the
sink's values, append each local value not already present, in order. -/
def mergeVals (ws vs : List String) : List String := vs.foldl mergeStep ws

/-! ### Lookup lemmas -/

theorem hLookup_eq_none_of_not_mem {k : String} {h : HeaderMap}
    (hk : k ∉ hKeys h) : hLookup k h = none := by
  induction h with
  | nil => rfl
  | cons e rest ih =>
    simp only [hKeys, List.map_cons, List.mem_cons, not_or] at hk
    simp only [hLookup]
    rw [if_neg (fun he => hk.1 he.symm)]
    exact ih (by simpa [hKeys] using hk.2)

theorem mem_keys_of_hLookup_isSome {k : String} {h : HeaderMap}
    (hk : (hLookup k h).isSome) : k ∈ hKeys h := by
  by_contra hmem
  rw [hLookup_eq_none_of_not_mem hmem] at hk
  simp at hk

theorem hLookup_isSome_of_mem {k : String} {h : HeaderMap}
    (hk : k ∈ hKeys h) : (hLookup k h).isSome := by
  induction h with
  | nil => simp [hKeys] at hk
  | cons e rest ih =>
    simp only [hKeys, List.map_cons, List.mem_cons] at hk
    simp only [hLookup]
    by_cases he : e.1 = k
    · rw [if_pos he]; rfl
    · rw [if_neg he]
      exact ih (hk.resolve_left (fun hkk => he hkk.symm))

theorem hLookup_of_mem_nodup {k : String} {vs : List String} {h : HeaderMap}
    (hnd : keysNodup h) (hmem : (k, vs) ∈ h) : hLookup k h = some vs := by
  induction h with
  | nil => simp at hmem
  | cons e rest ih =>
    have hnd2 : e.1 ∉ hKeys rest ∧ keysNodup rest := by
      simpa [keysNodup, hKeys] using hnd
    rcases List.mem_cons.mp hmem with heq | hrest
    · subst heq; simp [hLookup]
    · have hk : k ∈ hKeys rest := List.mem_map.mpr ⟨(k, vs), hrest, rfl⟩
      simp only [hLookup]
      rw [if_neg (fun he => hnd2.1 (by rw [he]; exact hk))]
      exact ih hnd2.2 hrest

/-! ### Erase lemmas -/

theorem hLookup_eraseKey_self (ck : String) (h : HeaderMap) :
    hLookup ck (eraseKey ck h) = none := by
  induction h with
  | nil => rfl
  | cons e rest ih =>
    simp only [eraseKey]
    by_cases he : e.1 = ck
    · rw [if_pos he]; exact ih
    · rw [if_neg he]; simp only [hLookup]; rw [if_neg he]; exact ih

theorem hLookup_eraseKey_other {k ck : String} (hne : k ≠ ck) (h : HeaderMap) :
    hLookup k (eraseKey ck h) = hLookup k h := by
  induction h with
  | nil => rfl
  | cons e rest ih =>
    simp only [eraseKey, hLookup]
    by_cases he : e.1 = ck
    · rw [if_pos he, ih, if_neg (fun hk => hne (hk.symm.trans he))]
    · rw [if_neg he]
      simp only [hLookup]
      by_cases hk : e.1 = k
      · rw [if_pos hk, if_pos hk]
      · rw [if_neg hk, if_neg hk, ih]

/-! ### Delete-phase characterization -/

theorem delFold_lookup (localh : HeaderMap) :
    ∀ (ks : List String) (acc : HeaderMap) (k : String),
      hLookup k (ks.foldl (delStep localh) acc) =
        if ∃ kk ∈ ks, hLookup kk localh = none ∧ canonicalMIMEHeaderKey kk = k then none
        else hLookup k acc := by
  intro ks
  induction ks with
  | nil => intro acc k; simp
  | cons kk ks ih =>
    intro acc k
    rw [List.foldl_cons, ih]
    by_cases h1 : (hLookup kk localh).isSome
    · have h1n : ¬ (hLookup kk localh = none) := by
        intro hcon; rw [hcon] at h1; simp at h1
      have hcond : (∃ x ∈ kk :: ks, hLookup x localh = none ∧ canonicalMIMEHeaderKey x = k) ↔
          (∃ x ∈ ks, hLookup x localh = none ∧ canonicalMIMEHeaderKey x = k) := by
        constructor
        · rintro ⟨x, hx, hxn, hxc⟩
          rcases List.mem_cons.mp hx with rfl | hx2
          · exact absurd hxn h1n
          · exact ⟨x, hx2, hxn, hxc⟩
        · rintro ⟨x, hx, hxn, hxc⟩; exact ⟨x, List.mem_cons_of_mem _ hx, hxn, hxc⟩
      have hstep : delStep localh acc kk = acc := by
        simp [delStep, h1]
      rw [hstep]
      by_cases h2 : ∃ x ∈ ks, hLookup x localh = none ∧ canonicalMIMEHeaderKey x = k
      · rw [if_pos h2, if_pos (hcond.mpr h2)]
      · rw [if_neg h2, if_neg (fun hc => h2 (hcond.mp hc))]
    · have h1e : hLookup kk localh = none := by
        cases hcase : hLookup kk localh with
        | none => rfl
        | some v => rw [hcase] at h1; simp at h1
      have hstep : delStep localh acc kk = eraseKey (canonicalMIMEHeaderKey kk) acc := by
        simp [delStep, headerDel, h1e]
      rw [hstep]
      by_cases hck : canonicalMIMEHeaderKey kk = k
      · have hcond : ∃ x ∈ kk :: ks, hLookup x localh = none ∧ canonicalMIMEHeaderKey x = k :=
          ⟨kk, List.mem_cons_self _ _, h1e, hck⟩
        rw [if_pos hcond]
        by_cases h2 : ∃ x ∈ ks, hLookup x localh = none ∧ canonicalMIMEHeaderKey x = k
        · rw [if_pos h2]
        · rw [if_neg h2, hck, hLookup_eraseKey_self]
      · have hcond : (∃ x ∈ kk :: ks, hLookup x localh = none ∧ canonicalMIMEHeaderKey x = k) ↔
            (∃ x ∈ ks, hLookup x localh = none ∧ canonicalMIMEHeaderKey x = k) := by
          constructor
          · rintro ⟨x, hx, hxn, hxc⟩
            rcases List.mem_cons.mp hx with rfl | hx2
            · exact absurd hxc hck
            · exact ⟨x, hx2, hxn, hxc⟩
          · rintro ⟨x, hx, hxn, hxc⟩; exact ⟨x, List.mem_cons_of_mem _ hx, hxn, hxc⟩
        rw [hLookup_eraseKey_other (fun he => hck he.symm)]
        by_cases h2 : ∃ x ∈ ks, hLookup x localh = none ∧ canonicalMIMEHeaderKey x = k
        · rw [if_pos h2, if_pos (hcond.mpr h2)]
        · rw [if_neg h2, if_neg (fun hc => h2 (hcond.mp hc))]

theorem deletePhase_lookup {localh sinkh : HeaderMap}
    (hcanon : canonKeys sinkh) (k : String) :
    hLookup k (deletePhase localh sinkh) =
      if (hLookup k localh).isSome then hLookup k sinkh else none := by
  rw [deletePhase, delFold_lookup]
  by_cases hl : (hLookup k localh).isSome
  · rw [if_pos hl, if_neg]
    rintro ⟨x, hx, hxn, hxc⟩
    rcases List.mem_map.mp hx with ⟨e, he, rfl⟩
    rw [hcanon e he] at hxc
    subst hxc
    rw [hxn] at hl; simp at hl
  · have hle : hLookup k localh = none := by
      cases hcase : hLookup k localh with
      | none => rfl
      | some v => rw [hcase] at hl; simp at hl
    rw [if_neg hl]
    by_cases hmem : k ∈ hKeys sinkh
    · rw [if_pos ?_]
      refine ⟨k, hmem, hle, ?_⟩
      rcases List.mem_map.mp hmem with ⟨e, he, rfl⟩
      exact hcanon e he
    · rw [if_neg, hLookup_eq_none_of_not_mem hmem]
      rintro ⟨x, hx, hxn, hxc⟩
      rcases List.mem_map.mp hx with ⟨e, he, rfl⟩
      rw [hcanon e he] at hxc
      exact hmem (hxc ▸ List.mem_map.mpr ⟨e, he, rfl⟩)

theorem foldDel_id (localh : HeaderMap) :
    ∀ (ks : List String) (acc : HeaderMap),
      (∀ kk ∈ ks, (hLookup kk localh).isSome) →
      ks.foldl (delStep localh) acc = acc := by
  intro ks
  induction ks with
  | nil => intro acc _; rfl
  | cons kk ks ih =>
    intro acc hall
    rw [List.foldl_cons]
    have hstep : delStep localh acc kk = acc := by
      simp [delStep, hall kk (List.mem_cons_self _ _)]
    rw [hstep]
    exact ih acc (fun x hx => hall x (List.mem_cons_of_mem _ hx))

/-! ### Add-phase characterization -/

theorem hLookup_addEntry_self (ck v : String) (h : HeaderMap) :
    hLookup ck (addEntry ck v h) = some ((hLookup ck h).getD [] ++ [v]) := by
  induction h with
  | nil => simp [addEntry, hLookup]
  | cons e rest ih =>
    simp only [addEntry, hLookup]
    by_cases he : e.1 = ck
    · rw [if_pos he]
      simp only [hLookup]
      rw [if_pos he, if_pos he]
      simp
    · rw [if_neg he]
      simp only [hLookup]
      rw [if_neg he, if_neg he]
      exact ih

theorem hLookup_addEntry_other {k ck : String} (hne : k ≠ ck) (v : String) (h : HeaderMap) :
    hLookup k (addEntry ck v h) = hLookup k h := by
  induction h with
  | nil =>
    simp only [addEntry, hLookup]
    rw [if_neg (fun he : ck = k => hne he.symm)]
  | cons e rest ih =>
    simp only [addEntry, hLookup]
    by_cases he : e.1 = ck
    · rw [if_pos he]
      simp only [hLookup]
      rw [if_neg (fun hk : e.1 = k => hne (hk.symm.trans he)),
        if_neg (fun hk : e.1 = k => hne (hk.symm.trans he))]
    · rw [if_neg he]
      simp only [hLookup]
      by_cases hk : e.1 = k
      · rw [if_pos hk, if_pos hk]
      · rw [if_neg hk, if_neg hk, ih]

theorem hLookup_addOne_self (acc : HeaderMap) (key v : String) :
    hLookup (canonicalMIMEHeaderKey key) (addOne acc key v) =
      some (mergeStep ((hLookup (canonicalMIMEHeaderKey key) acc).getD []) v) := by
  unfold addOne headerValues mergeStep headerAdd
  by_cases hv : v ∈ (hLookup (canonicalMIMEHeaderKey key) acc).getD []
  · rw [if_pos hv, if_pos hv]
    cases hcase : hLookup (canonicalMIMEHeaderKey key) acc with
    | none => rw [hcase] at hv; simp at hv
    | some ws => simp
  · rw [if_neg hv, if_neg hv, hLookup_addEntry_self]

theorem hLookup_addOne_other {k key : String} (hne : k ≠ canonicalMIMEHeaderKey key)
    (acc : HeaderMap) (v : String) :
    hLookup k (addOne acc key v) = hLookup k acc := by
  unfold addOne headerAdd
  by_cases hv : v ∈ headerValues acc key
  · rw [if_pos hv]
  · rw [if_neg hv, hLookup_addEntry_other hne]

theorem hLookup_addVals_self (key : String) :
    ∀ (vs : List String) (acc : HeaderMap),
      hLookup (canonicalMIMEHeaderKey key) (addVals acc key vs) =
        if vs = [] then hLookup (canonicalMIMEHeaderKey key) acc
        else some (mergeVals ((hLookup (canonicalMIMEHeaderKey key) acc).getD []) vs) := by
  intro vs
  induction vs with
  | nil => intro acc; simp [addVals]
  | cons v rest ih =>
    intro acc
    rw [if_neg (by simp)]
    have hunf : addVals acc key (v :: rest) = addVals (addOne acc key v) key rest := rfl
    rw [hunf, ih]
    by_cases hr : rest = []
    · subst hr
      rw [if_pos rfl, hLookup_addOne_self]
      rfl
    · rw [if_neg hr, hLookup_addOne_self]
      have : mergeVals ((hLookup (canonicalMIMEHeaderKey key) acc).getD []) (v :: rest) =
          mergeVals (mergeStep ((hLookup (canonicalMIMEHeaderKey key) acc).getD []) v) rest := rfl
      rw [this]
      rfl

theorem hLookup_addVals_other {k key : String} (hne : k ≠ canonicalMIMEHeaderKey key) :
    ∀ (vs : List String) (acc : HeaderMap),
      hLookup k (addVals acc key vs) = hLookup k acc := by
  intro vs
  induction vs with
  | nil => intro acc; rfl
  | cons v rest ih =>
    intro acc
    have hunf : addVals acc key (v :: rest) = addVals (addOne acc key v) key rest := rfl
    rw [hunf, ih, hLookup_addOne_other hne]

theorem addPhase_lookup {k : String} :
    ∀ (localh : HeaderMap) (h : HeaderMap),
      canonKeys localh → keysNodup localh →
      hLookup k (addPhase localh h) =
        match hLookup k localh with
        | none => hLookup k h
        | some vs =>
          if vs = [] then hLookup k h
          else some (mergeVals ((hLookup k h).getD []) vs) := by
  intro localh
  induction localh with
  | nil => intro h _ _; rfl
  | cons e rest ih =>
    intro h hcanon hnd
    have hce : canonicalMIMEHeaderKey e.1 = e.1 := hcanon e (List.mem_cons_self _ _)
    have hcr : canonKeys rest := fun x hx => hcanon x (List.mem_cons_of_mem _ hx)
    have hnd2 : e.1 ∉ hKeys rest ∧ keysNodup rest := by
      simpa [keysNodup, hKeys] using hnd
    have hunf : addPhase (e :: rest) h = addPhase rest (addVals h e.1 e.2) := rfl
    rw [hunf, ih (addVals h e.1 e.2) hcr hnd2.2]
    by_cases hk : e.1 = k
    · subst hk
      have hlr : hLookup e.1 rest = none := hLookup_eq_none_of_not_mem hnd2.1
      rw [hlr]
      have hl : hLookup e.1 (e :: rest) = some e.2 := by simp [hLookup]
      rw [hl]
      have := hLookup_addVals_self e.1 e.2 h
      rw [hce] at this
      rw [this]
    · have hl : hLookup k (e :: rest) = hLookup k rest := by
        simp only [hLookup]
        rw [if_neg hk]
      rw [hl, hLookup_addVals_other (fun hkk => hk ((hce ▸ hkk).symm)) e.2 h]

/-! ### The per-key result of the reconciliation -/

theorem mergeVals_nil (ws : List String) : mergeVals ws [] = ws := rfl

theorem reconcile_lookup {localh sinkh : HeaderMap}
    (h1 : canonKeys localh) (h2 : keysNodup localh) (h3 : canonKeys sinkh)
    (k : String) :
    hLookup k (reconcileHeader localh sinkh) =
      match hLookup k localh, hLookup k sinkh with
      | none, _ => none
      | some vs, some ws => some (mergeVals ws vs)
      | some [], none => none
      | some (v :: tl), none => some (mergeVals [] (v :: tl)) := by
  rw [reconcileHeader, addPhase_lookup localh (deletePhase localh sinkh) h1 h2,
    deletePhase_lookup h3 k]
  cases hl : hLookup k localh with
  | none =>
    rw [if_neg (by simp)]
  | some vs =>
    rw [if_pos (by simp)]
    cases hs : hLookup k sinkh with
    | none =>
      cases vs with
      | nil => simp
      | cons v tl => simp
    | some ws =>
      cases vs with
      | nil => simp [mergeVals_nil]
      | cons v tl => simp

/-! ### Membership facts about the merged values -/

theorem mem_mergeStep_of_mem {x : String} {ws : List String} (hx : x ∈ ws) (v : String) :
    x ∈ mergeStep ws v := by
  unfold mergeStep
  by_cases hv : v ∈ ws
  · rw [if_pos hv]; exact hx
  · rw [if_neg hv]; exact List.mem_append_left _ hx

theorem mem_mergeVals_of_mem_left {x : String} :
    ∀ (vs ws : List String), x ∈ ws → x ∈ mergeVals ws vs := by
  intro vs
  induction vs with
  | nil => intro ws hx; exact hx
  | cons v rest ih =>
    intro ws hx
    exact ih (mergeStep ws v) (mem_mergeStep_of_mem hx v)

theorem mem_mergeVals_of_mem_right {x : String} :
    ∀ (vs ws : List String), x ∈ vs → x ∈ mergeVals ws vs := by
  intro vs
  induction vs with
  | nil => intro ws hx; simp at hx
  | cons v rest ih =>
    intro ws hx
    rcases List.mem_cons.mp hx with rfl | hx2
    · refine mem_mergeVals_of_mem_left rest (mergeStep ws x) ?_
      unfold mergeStep
      by_cases hv : x ∈ ws
      · rw [if_pos hv]; exact hv
      · rw [if_neg hv]; exact List.mem_append_right _ (List.mem_singleton.mpr rfl)
    · exact ih (mergeStep ws v) hx2

/-! ### The reconciliation is a no-op when nothing is missing -/

theorem addVals_id {key : String} :
    ∀ (vs : List String) (h : HeaderMap),
      (∀ v ∈ vs, v ∈ headerValues h key) → addVals h key vs = h := by
  intro vs
  induction vs with
  | nil => intro h _; rfl
  | cons v rest ih =>
    intro h hall
    have hone : addOne h key v = h := by
      unfold addOne
      rw [if_pos (hall v (List.mem_cons_self _ _))]
    have hunf : addVals h key (v :: rest) = addVals (addOne h key v) key rest := rfl
    rw [hunf, hone]
    exact ih h (fun x hx => hall x (List.mem_cons_of_mem _ hx))

theorem addPhase_id :
    ∀ (localh : HeaderMap) (h : HeaderMap),
      (∀ e ∈ localh, ∀ v ∈ e.2, v ∈ headerValues h e.1) → addPhase localh h = h := by
  intro localh
  induction localh with
  | nil => intro h _; rfl
  | cons e rest ih =>
    intro h hall
    have hunf : addPhase (e :: rest) h = addPhase rest (addVals h e.1 e.2) := rfl
    rw [hunf, addVals_id e.2 h (hall e (List.mem_cons_self _ _))]
    exact ih h (fun x hx => hall x (List.mem_cons_of_mem _ hx))

/-! ### Keys reachable from the add phase -/

theorem mem_keys_addEntry {k ck v : String} :
    ∀ {h : HeaderMap}, k ∈ hKeys (addEntry ck v h) → k ∈ hKeys h ∨ k = ck := by
  intro h
  induction h with
  | nil =>
    intro hk
    simp only [addEntry, hKeys, List.map_cons, List.map_nil, List.mem_cons] at hk
    exact Or.inr (by simpa using hk)
  | cons e rest ih =>
    intro hk
    simp only [addEntry] at hk
    by_cases he : e.1 = ck
    · rw [if_pos he] at hk
      simp only [hKeys, List.map_cons, List.mem_cons] at hk
      rcases hk with rfl | hk2
      · exact Or.inl (List.mem_cons_self _ _)
      · exact Or.inl (List.mem_cons_of_mem _ hk2)
    · rw [if_neg he] at hk
      simp only [hKeys, List.map_cons, List.mem_cons] at hk
      rcases hk with rfl | hk2
      · exact Or.inl (List.mem_cons_self _ _)
      · rcases ih hk2 with hmem | rfl
        · exact Or.inl (List.mem_cons_of_mem _ hmem)
        · exact Or.inr rfl

theorem mem_keys_addOne {k key v : String} {acc : HeaderMap}
    (hk : k ∈ hKeys (addOne acc key v)) :
    k ∈ hKeys acc ∨ k = canonicalMIMEHeaderKey key := by
  unfold addOne headerAdd at hk
  by_cases hv : v ∈ headerValues acc key
  · rw [if_pos hv] at hk; exact Or.inl hk
  · rw [if_neg hv] at hk; exact mem_keys_addEntry hk

theorem mem_keys_addVals {k key : String} :
    ∀ (vs : List String) (acc : HeaderMap),
      k ∈ hKeys (addVals acc key vs) → k ∈ hKeys acc ∨ k = canonicalMIMEHeaderKey key := by
  intro vs
  induction vs with
  | nil => intro acc hk; exact Or.inl hk
  | cons v rest ih =>
    intro acc hk
    have hunf : addVals acc key (v :: rest) = addVals (addOne acc key v) key rest := rfl
    rw [hunf] at hk
    rcases ih (addOne acc key v) hk with hmem | rfl
    · exact mem_keys_addOne hmem
    · exact Or.inr rfl

theorem mem_keys_addPhase {k : String} :
    ∀ (localh : HeaderMap) (h : HeaderMap),
      k ∈ hKeys (addPhase localh h) →
      k ∈ hKeys h ∨ ∃ e ∈ localh, k = canonicalMIMEHeaderKey e.1 := by
  intro localh
  induction localh with
  | nil => intro h hk; exact Or.inl hk
  | cons e rest ih =>
    intro h hk
    have hunf : addPhase (e :: rest) h = addPhase rest (addVals h e.1 e.2) := rfl
    rw [hunf] at hk
    rcases ih (addVals h e.1 e.2) hk with hmem | ⟨x, hx, rfl⟩
    · rcases mem_keys_addVals e.2 h hmem with hmem2 | rfl
      · exact Or.inl hmem2
      · exact Or.inr ⟨e, List.mem_cons_self _ _, rfl⟩
    · exact Or.inr ⟨x, List.mem_cons_of_mem _ hx, rfl⟩

/-! ### Idempotence of the reconciliation -/

theorem reconcile_values_present {localh sinkh : HeaderMap}
    (h1 : canonKeys localh) (h2 : keysNodup localh) (h3 : canonKeys sinkh) :
    ∀ e ∈ localh, ∀ v ∈ e.2, v ∈ headerValues (reconcileHeader localh sinkh) e.1 := by
  intro e he v hv
  have hce : canonicalMIMEHeaderKey e.1 = e.1 := h1 e he
  have hl : hLookup e.1 localh = some e.2 := hLookup_of_mem_nodup h2 he
  have hchar := reconcile_lookup h1 h2 h3 e.1
  rw [hl] at hchar
  unfold headerValues
  rw [hce]
  cases hs : hLookup e.1 sinkh with
  | none =>
    rw [hs] at hchar
    cases hvs : e.2 with
    | nil => rw [hvs] at hv; simp at hv
    | cons v0 tl =>
      rw [hvs] at hchar
      rw [hchar]
      simpa using mem_mergeVals_of_mem_right (v0 :: tl) [] (hvs ▸ hv)
  | some ws =>
    rw [hs] at hchar
    rw [hchar]
    simpa using mem_mergeVals_of_mem_right e.2 ws hv

theorem reconcile_keys_lookup_isSome {localh sinkh : HeaderMap}
    (h1 : canonKeys localh) (h3 : canonKeys sinkh) :
    ∀ kk ∈ hKeys (reconcileHeader localh sinkh), (hLookup kk localh).isSome := by
  intro kk hkk
  rcases mem_keys_addPhase localh (deletePhase localh sinkh) hkk with hmem | ⟨e, he, rfl⟩
  · have hsome := hLookup_isSome_of_mem hmem
    rw [deletePhase_lookup h3 kk] at hsome
    by_cases hloc : (hLookup kk localh).isSome
    · exact hloc
    · rw [if_neg hloc] at hsome; simp at hsome
  · rw [h1 e he]
    exact hLookup_isSome_of_mem (List.mem_map.mpr ⟨e, he, rfl⟩)

theorem reconcileHeader_idempotent {localh sinkh : HeaderMap}
    (h1 : canonKeys localh) (h2 : keysNodup localh) (h3 : canonKeys sinkh) :
    reconcileHeader localh (reconcileHeader localh sinkh) = reconcileHeader localh sinkh := by
  have hdel : deletePhase localh (reconcileHeader localh sinkh) = reconcileHeader localh sinkh :=
    foldDel_id localh _ _ (reconcile_keys_lookup_isSome h1 h3)
  have hchain : reconcileHeader localh (reconcileHeader localh sinkh) =
      addPhase localh (reconcileHeader localh sinkh) := by
    rw [reconcileHeader, hdel]
  rw [hchain]
  exact addPhase_id localh _ (reconcile_values_present h1 h2 h3)

/-! ### Unfolding lemmas for `Flush` -/

theorem flush_closed (rw : ResponseWriterBuffer) (s : Sink) (hc : rw.closed = true) :
    rw.Flush s = (rw, s, 0, some RWBError.bufferClosed) := by
  simp [ResponseWriterBuffer.Flush, hc]

theorem flush_success (rw : ResponseWriterBuffer) (s : Sink)
    (hc : rw.closed = false) (hf : s.failWrite = none) :
    rw.Flush s = ({ rw with closed := true },
      { s with header := reconcileHeader rw.header s.header,
               status := if rw.statusCode ≠ 0 then s.status ++ [rw.statusCode] else s.status,
               body := s.body ++ [rw.body] },
      rw.body.length, none) := by
  by_cases hsc : rw.statusCode ≠ 0
  · simp [ResponseWriterBuffer.Flush, hc, hsc, Sink.write, hf]
  · simp [ResponseWriterBuffer.Flush, hc, hsc, Sink.write, hf]

theorem flush_fail (rw : ResponseWriterBuffer) (s : Sink) (e : Nat)
    (hc : rw.closed = false) (hf : s.failWrite = some e) :
    rw.Flush s = (rw,
      { s with header := reconcileHeader rw.header s.header,
               status := if rw.statusCode ≠ 0 then s.status ++ [rw.statusCode] else s.status },
      0, some (RWBError.sink e)) := by
  by_cases hsc : rw.statusCode ≠ 0
  · simp [ResponseWriterBuffer.Flush, hc, hsc, Sink.write, hf]
  · simp [ResponseWriterBuffer.Flush, hc, hsc, Sink.write, hf]

/-! ### Operation sequences -/

theorem applyOp_sink_eq (st : ResponseWriterBuffer × Sink) (op : Op)
    (h : op ≠ Op.flush) : (applyOp st op).2 = st.2 := by
  cases op with
  | write p => rfl
  | writeHeader c => rfl
  | setHeader hm => rfl
  | flush => exact absurd rfl h

theorem runOps_sink_eq :
    ∀ (ops : List Op) (st : ResponseWriterBuffer × Sink),
      (∀ op ∈ ops, op ≠ Op.flush) → (runOps st ops).2 = st.2 := by
  intro ops
  induction ops with
  | nil => intro st _; rfl
  | cons op rest ih =>
    intro st hall
    have hunf : runOps st (op :: rest) = runOps (applyOp st op) rest := rfl
    rw [hunf, ih (applyOp st op) (fun x hx => hall x (List.mem_cons_of_mem _ hx)),
      applyOp_sink_eq st op (hall op (List.mem_cons_self _ _))]

theorem applyOp_closed (st : ResponseWriterBuffer × Sink) (op : Op)
    (h : st.1.closed = true) : ((applyOp st op).1).closed = true := by
  cases op with
  | write p => simp [applyOp, ResponseWriterBuffer.Write, h]
  | writeHeader c => simp [applyOp, ResponseWriterBuffer.WriteHeader, h]
  | setHeader hm => simp [applyOp, h]
  | flush => simp [applyOp, ResponseWriterBuffer.Flush, h]

theorem runOps_closed :
    ∀ (ops : List Op) (st : ResponseWriterBuffer × Sink),
      st.1.closed = true → ((runOps st ops).1).closed = true := by
  intro ops
  induction ops with
  | nil => intro st h; exact h
  | cons op rest ih =>
    intro st h
    have hunf : runOps st (op :: rest) = runOps (applyOp st op) rest := rfl
    rw [hunf]
    exact ih (applyOp st op) (applyOp_closed st op h)

/-! ### The claims -/

/-- Claim C1, counterexample: with the sink holding values `a, b` for key `X`
and the buffer's local copy holding only `a`, a successful `Flush` leaves the
sink's values for `X` as `a, b`, while `b` is not in the local set — so the
sink's header set does not become set-equal, per key, to the local set, and a
sink value outside the (non-superset) local copy is not purged. -/
theorem c1_counterexample :
    (ResponseWriterBuffer.Flush
        { header := [(("X"), [("a")])], body := [], statusCode := 0, closed := false }
        { header := [(("X"), [("a"), ("b")])], status := [], body := [],
          failWrite := none }) =
      ({ header := [(("X"), [("a")])], body := [], statusCode := 0, closed := true },
       { header := [(("X"), [("a"), ("b")])], status := [], body := [[]],
         failWrite := none },
       0, none) ∧
    ("b") ∉ headerValues [(("X"), [("a")])] ("X") := by
  decide

/-- Claim C1 (amended): after a successful `Flush` from states whose header
keys are canonical and (locally) duplicate-free, the sink's values for a key
`k` become: absent when `k` is absent from the buffer's local header set;
the sink's previous values followed by exactly the missing local values,
appended once each without duplication, when `k` is present in both; and the
local values deduplicated in order when `k` is local-only.  Sink values
absent from the local set are preserved, not purged, whenever the key itself
is present in the local set. -/
theorem c1_flush_header_characterization (rw : ResponseWriterBuffer) (s : Sink)
    (hc : rw.closed = false) (hf : s.failWrite = none)
    (h1 : canonKeys rw.header) (h2 : keysNodup rw.header) (h3 : canonKeys s.header) :
    (rw.Flush s).2.2.2 = none ∧
    ∀ k, hLookup k ((rw.Flush s).2.1).header =
      match hLookup k rw.header, hLookup k s.header with
      | none, _ => none
      | some vs, some ws => some (mergeVals ws vs)
      | some [], none => none
      | some (v :: tl), none => some (mergeVals [] (v :: tl)) := by
  rw [flush_success rw s hc hf]
  exact ⟨rfl, fun k => reconcile_lookup h1 h2 h3 k⟩

/-- Witness for the amended C1 at a concrete state: key `X` is in both
sides, the missing value `c` is appended after the sink's `a, b`. -/
theorem c1_flush_header_characterization_witness :
    (({ header := [(("X"), [("a"), ("c")])], body := [], statusCode := 0,
        closed := false } : ResponseWriterBuffer).closed = false ∧
      canonKeys [(("X"), [("a"), ("c")])] ∧ keysNodup [(("X"), [("a"), ("c")])] ∧
      canonKeys [(("X"), [("a"), ("b")])]) ∧
    hLookup ("X")
      ((ResponseWriterBuffer.Flush
          { header := [(("X"), [("a"), ("c")])], body := [], statusCode := 0,
            closed := false }
          { header := [(("X"), [("a"), ("b")])], status := [], body := [],
            failWrite := none }).2.1).header = some [("a"), ("b"), ("c")] := by
  constructor
  · exact ⟨rfl, by decide, by decide, by decide⟩
  · have h := (c1_flush_header_characterization
      { header := [(("X"), [("a"), ("c")])], body := [], statusCode := 0,
        closed := false }
      { header := [(("X"), [("a"), ("b")])], status := [], body := [],
        failWrite := none }
      (by decide) (by decide) (by decide) (by decide) (by decide)).2 ("X")
    simpa using h

/-- Claim C2: on an open buffer, writing `p1` then `p2` and committing
delivers exactly `p2` to the sink: each `Write` replaces the cached payload
(last-write-wins), and the successful `Flush` hands the sink only `p2`. -/
theorem c2_last_write_wins (rw : ResponseWriterBuffer) (s : Sink) (p1 p2 : List Nat)
    (hc : rw.closed = false) (hf : s.failWrite = none) :
    rw.Write p1 = ({ rw with body := p1 }, p1.length, none) ∧
    ((rw.Write p1).1).Write p2 = ({ rw with body := p2 }, p2.length, none) ∧
    ((((rw.Write p1).1.Write p2).1).Flush s).2.1.body = s.body ++ [p2] ∧
    ((((rw.Write p1).1.Write p2).1).Flush s).2.2 = (p2.length, none) := by
  have h1 : rw.Write p1 = ({ rw with body := p1 }, p1.length, none) := by
    simp [ResponseWriterBuffer.Write, hc]
  have h2 : ({ rw with body := p1 } : ResponseWriterBuffer).Write p2 =
      ({ rw with body := p2 }, p2.length, none) := by
    simp [ResponseWriterBuffer.Write, hc]
  have h3 := flush_success ({ rw with body := p2 }) s hc hf
  refine ⟨h1, ?_, ?_, ?_⟩
  · rw [h1]; exact h2
  · rw [h1]
    have : (({ rw with body := p1 } : ResponseWriterBuffer).Write p2).1.Flush s =
        ({ rw with body := p2 } : ResponseWriterBuffer).Flush s := by rw [h2]
    rw [this, h3]
  · rw [h1]
    have : (({ rw with body := p1 } : ResponseWriterBuffer).Write p2).1.Flush s =
        ({ rw with body := p2 } : ResponseWriterBuffer).Flush s := by rw [h2]
    rw [this, h3]

/-- Witness for C2 at a concrete state: writing `[104]` then `[119]` and
committing delivers `[119]` alone. -/
theorem c2_last_write_wins_witness :
    (({ header := [], body := [], statusCode := 0,
        closed := false } : ResponseWriterBuffer).closed = false ∧
      ({ header := [], status := [], body := [], failWrite := none } : Sink).failWrite
        = none) ∧
    (((({ header := [], body := [], statusCode := 0,
          closed := false } : ResponseWriterBuffer).Write [104]).1.Write [119]).1.Flush
        { header := [], status := [], body := [], failWrite := none }).2.1.body
      = [[119]] := by
  refine ⟨⟨rfl, rfl⟩, ?_⟩
  have h := (c2_last_write_wins
    { header := [], body := [], statusCode := 0, closed := false }
    { header := [], status := [], body := [], failWrite := none }
    [104] [119] (by decide) (by decide)).2.2.1
  simpa using h

/-- Claim C3: once the buffer is closed, `Write` and `Flush` both fail with
`ErrBufferClosed`, report 0 bytes, and return the buffer and the sink
exactly as they were. -/
theorem c3_closed_buffer_rejects (rw : ResponseWriterBuffer) (s : Sink) (p : List Nat)
    (hc : rw.closed = true) :
    rw.Write p = (rw, 0, some RWBError.bufferClosed) ∧
    rw.Flush s = (rw, s, 0, some RWBError.bufferClosed) :=
  ⟨by simp [ResponseWriterBuffer.Write, hc], flush_closed rw s hc⟩

/-- Witness for C3 at a concrete closed buffer. -/
theorem c3_closed_buffer_rejects_witness :
    (({ header := [], body := [5], statusCode := 200,
        closed := true } : ResponseWriterBuffer).closed = true) ∧
    ({ header := [], body := [5], statusCode := 200,
        closed := true } : ResponseWriterBuffer).Write [7] =
      ({ header := [], body := [5], statusCode := 200, closed := true }, 0,
        some RWBError.bufferClosed) ∧
    ({ header := [], body := [5], statusCode := 200,
        closed := true } : ResponseWriterBuffer).Flush
        { header := [], status := [], body := [], failWrite := none } =
      ({ header := [], body := [5], statusCode := 200, closed := true },
        { header := [], status := [], body := [], failWrite := none }, 0,
        some RWBError.bufferClosed) := by
  refine ⟨rfl, ?_, ?_⟩
  · exact (c3_closed_buffer_rejects
      { header := [], body := [5], statusCode := 200, closed := true }
      { header := [], status := [], body := [], failWrite := none } [7] rfl).1
  · exact (c3_closed_buffer_rejects
      { header := [], body := [5], statusCode := 200, closed := true }
      { header := [], status := [], body := [], failWrite := none } [7] rfl).2

/-- Claim C4: when the sink's body write fails, `Flush` returns 0 bytes and
the sink's error unchanged, leaves the buffer exactly as it was (in
particular not closed), and leaves the sink partially mutated — header
reconciliation and status application are not rolled back, while the body is
untouched. -/
theorem c4_body_write_failure (rw : ResponseWriterBuffer) (s : Sink) (e : Nat)
    (hc : rw.closed = false) (hf : s.failWrite = some e) :
    rw.Flush s = (rw,
      { s with header := reconcileHeader rw.header s.header,
               status := if rw.statusCode ≠ 0 then s.status ++ [rw.statusCode]
                 else s.status },
      0, some (RWBError.sink e)) :=
  flush_fail rw s e hc hf

/-- Witness for C4 at a concrete state: the status 500 is applied, the
header reconciliation has run, the body is empty, closed stays false, and
the sink's error 7 comes back unchanged. -/
theorem c4_body_write_failure_witness :
    (({ header := [], body := [3], statusCode := 500,
        closed := false } : ResponseWriterBuffer).closed = false ∧
      ({ header := [(("X"), [("a")])], status := [], body := [],
         failWrite := some 7 } : Sink).failWrite = some 7) ∧
    ({ header := [], body := [3], statusCode := 500,
        closed := false } : ResponseWriterBuffer).Flush
        { header := [(("X"), [("a")])], status := [], body := [], failWrite := some 7 } =
      ({ header := [], body := [3], statusCode := 500, closed := false },
        { header := [], status := [500], body := [], failWrite := some 7 }, 0,
        some (RWBError.sink 7)) := by
  refine ⟨⟨rfl, rfl⟩, ?_⟩
  have h := c4_body_write_failure
    { header := [], body := [3], statusCode := 500, closed := false }
    { header := [(("X"), [("a")])], status := [], body := [], failWrite := some 7 }
    7 (by decide) (by decide)
  rw [h]
  decide

/-- Claim C5: as long as `Flush` is never invoked, no sequence of
construction, local-header mutation, `Write` and `WriteHeader` touches the
sink; the buffer starts from a snapshot of the sink's header set and the
sink afterwards is exactly what it was before construction. -/
theorem c5_no_flush_no_sink_mutation (s : Sink) (ops : List Op)
    (h : ∀ op ∈ ops, op ≠ Op.flush) :
    (New s).header = s.header ∧ (runOps (New s, s) ops).2 = s :=
  ⟨rfl, runOps_sink_eq ops (New s, s) h⟩

/-- Witness for C5 at a concrete state: a body write, a local header
mutation and a status write leave the sink untouched. -/
theorem c5_no_flush_no_sink_mutation_witness :
    (∀ op ∈ [Op.write [1, 2], Op.setHeader [(("X"), [("a")])], Op.writeHeader 404],
      op ≠ Op.flush) ∧
    (runOps (New { header := [(("K"), [("v")])], status := [], body := [],
                   failWrite := none },
      { header := [(("K"), [("v")])], status := [], body := [], failWrite := none })
      [Op.write [1, 2], Op.setHeader [(("X"), [("a")])], Op.writeHeader 404]).2 =
      { header := [(("K"), [("v")])], status := [], body := [], failWrite := none } := by
  refine ⟨by decide, ?_⟩
  exact (c5_no_flush_no_sink_mutation
    { header := [(("K"), [("v")])], status := [], body := [], failWrite := none }
    [Op.write [1, 2], Op.setHeader [(("X"), [("a")])], Op.writeHeader 404]
    (by decide)).2

/-- Claim C6, counterexample: the sink key `X-Foo` (holding `a`) is deleted
by the reconciliation even though the case-variant spelling `x-foo` is
present in the buffer's local set — the value `a` is purged and only the
local `b` survives — so the delete check is not a canonicalizing (case
insensitive) comparison. -/
theorem c6_counterexample :
    canonicalMIMEHeaderKey ("x-foo") = ("X-Foo") ∧
    (hLookup ("x-foo") [(("x-foo"), [("b")])]).isSome = true ∧
    (ResponseWriterBuffer.Flush
        { header := [(("x-foo"), [("b")])], body := [], statusCode := 0,
          closed := false }
        { header := [(("X-Foo"), [("a")])], status := [], body := [],
          failWrite := none }).2.1.header = [(("X-Foo"), [("b")])] := by
  decide

/-- Claim C6 (amended): the delete phase of the reconciliation compares
keys by exact string equality — with canonical sink keys, a sink key
survives the delete phase if and only if the exact key string is present in
the local set, a case-variant spelling giving no protection — while the
value-presence check guarding each append does canonicalize its key, so a
value stored under any case-variant spelling of the same key suppresses
the append. -/
theorem c6_exact_key_deletion_canonical_dedup (localh sinkh hm : HeaderMap)
    (k k2 v : String)
    (h3 : canonKeys sinkh)
    (hck : canonicalMIMEHeaderKey k = canonicalMIMEHeaderKey k2)
    (hv : v ∈ headerValues hm k2) :
    (hLookup k localh = none → hLookup k (deletePhase localh sinkh) = none) ∧
    ((hLookup k localh).isSome → hLookup k (deletePhase localh sinkh) = hLookup k sinkh) ∧
    addPhase [(k, [v])] hm = hm := by
  refine ⟨?_, ?_, ?_⟩
  · intro hnone
    rw [deletePhase_lookup h3 k, if_neg (by rw [hnone]; simp)]
  · intro hsome
    rw [deletePhase_lookup h3 k, if_pos hsome]
  · have hvals : headerValues hm k = headerValues hm k2 := by
      unfold headerValues; rw [hck]
    have hunf : addPhase [(k, [v])] hm = addOne hm k v := rfl
    rw [hunf]
    unfold addOne
    rw [if_pos (by rw [hvals]; exact hv)]

/-- Witness for the amended C6 at a concrete state: the exactly-present key
`X` survives deletion, an exactly-absent key is deleted, and an append of
`z` under the spelling `x-foo` is suppressed because `z` already sits under
`X-Foo`. -/
theorem c6_exact_key_deletion_canonical_dedup_witness :
    (canonKeys [(("X"), [("a")])] ∧
      canonicalMIMEHeaderKey ("x-foo") = canonicalMIMEHeaderKey ("X-Foo") ∧
      ("z") ∈ headerValues [(("X-Foo"), [("z")])] ("X-Foo")) ∧
    addPhase [(("x-foo"), [("z")])] [(("X-Foo"), [("z")])] = [(("X-Foo"), [("z")])] := by
  refine ⟨⟨by decide, by decide, by decide⟩, ?_⟩
  exact (c6_exact_key_deletion_canonical_dedup [] [(("X"), [("a")])]
    [(("X-Foo"), [("z")])] ("x-foo") ("X-Foo") ("z")
    (by decide) (by decide) (by decide)).2.2

/-- Claim C7: `Flush` applies the stored status code to the sink exactly
when it is not the unset sentinel 0 (on the failure path as well), and
`WriteHeader` only stores the code — the sink component is untouched by it. -/
theorem c7_status_application (rw : ResponseWriterBuffer) (s : Sink) (c : Int)
    (hc : rw.closed = false) :
    ((rw.Flush s).2.1).status =
      (if rw.statusCode ≠ 0 then s.status ++ [rw.statusCode] else s.status) ∧
    applyOp (rw, s) (Op.writeHeader c) = (rw.WriteHeader c, s) ∧
    rw.WriteHeader c = { rw with statusCode := c } := by
  refine ⟨?_, rfl, rfl⟩
  cases hf : s.failWrite with
  | none => rw [flush_success rw s hc hf]
  | some e => rw [flush_fail rw s e hc hf]

/-- Witness for C7 at a concrete state: status 301 is applied at flush;
status 0 would not be (the sentinel test is part of the applied theorem). -/
theorem c7_status_application_witness :
    (({ header := [], body := [], statusCode := 301,
        closed := false } : ResponseWriterBuffer).closed = false) ∧
    ((({ header := [], body := [], statusCode := 301,
         closed := false } : ResponseWriterBuffer).Flush
        { header := [], status := [], body := [], failWrite := none }).2.1).status =
      (if (301 : Int) ≠ 0 then ([] : List Int) ++ [301] else []) := by
  refine ⟨rfl, ?_⟩
  exact (c7_status_application
    { header := [], body := [], statusCode := 301, closed := false }
    { header := [], status := [], body := [], failWrite := none } 0 (by decide)).1

/-- Claim C8: when the sink's body write succeeds, `Flush` returns the byte
count the sink reported with no error and marks the buffer closed; the
closed flag then stays `true` under every further operation sequence. -/
theorem c8_successful_flush_closes (rw : ResponseWriterBuffer) (s : Sink)
    (hc : rw.closed = false) (hf : s.failWrite = none) :
    (rw.Flush s).2.2 = (rw.body.length, (none : Option RWBError)) ∧
    ((rw.Flush s).1).closed = true ∧
    ∀ (ops : List Op) (s2 : Sink), ((runOps ((rw.Flush s).1, s2) ops).1).closed = true := by
  have h := flush_success rw s hc hf
  refine ⟨by rw [h], by rw [h], ?_⟩
  intro ops s2
  exact runOps_closed ops ((rw.Flush s).1, s2) (by rw [h])

/-- Witness for C8 at a concrete state: flushing a 2-byte body reports
`(2, none)`, closes the buffer, and a later write plus a later flush leave
it closed. -/
theorem c8_successful_flush_closes_witness :
    (({ header := [], body := [9, 8], statusCode := 0,
        closed := false } : ResponseWriterBuffer).closed = false) ∧
    (({ header := [], body := [9, 8], statusCode := 0,
        closed := false } : ResponseWriterBuffer).Flush
        { header := [], status := [], body := [], failWrite := none }).2.2 =
      (2, (none : Option RWBError)) ∧
    ((runOps
        ((({ header := [], body := [9, 8], statusCode := 0,
             closed := false } : ResponseWriterBuffer).Flush
            { header := [], status := [], body := [], failWrite := none }).1,
          { header := [], status := [], body := [], failWrite := none })
        [Op.write [7], Op.flush]).1).closed = true := by
  have h := c8_successful_flush_closes
    { header := [], body := [9, 8], statusCode := 0, closed := false }
    { header := [], status := [], body := [], failWrite := none }
    (by decide) (by decide)
  refine ⟨rfl, by simpa using h.1, ?_⟩
  exact h.2.2 [Op.write [7], Op.flush]
    { header := [], status := [], body := [], failWrite := none }

/-- Claim C9: the header reconciliation of `Flush` is idempotent on states
with canonical, duplicate-free keys: a second run straight after a first
leaves the sink's header set unchanged, so re-invoking `Flush` after a
failed body write neither duplicates header values nor deletes further
keys. -/
theorem c9_reconcile_idempotent (rw : ResponseWriterBuffer) (s : Sink) (e : Nat)
    (h1 : canonKeys rw.header) (h2 : keysNodup rw.header) (h3 : canonKeys s.header)
    (hc : rw.closed = false) (hf : s.failWrite = some e) :
    reconcileHeader rw.header (reconcileHeader rw.header s.header) =
      reconcileHeader rw.header s.header ∧
    ((rw.Flush ((rw.Flush s).2.1)).2.1).header = ((rw.Flush s).2.1).header := by
  have hid := reconcileHeader_idempotent h1 h2 h3
  refine ⟨hid, ?_⟩
  have hfl := flush_fail rw s e hc hf
  rw [hfl]
  have hfl2 := flush_fail rw
    ({ s with header := reconcileHeader rw.header s.header,
              status := if rw.statusCode ≠ 0 then s.status ++ [rw.statusCode]
                else s.status }) e hc hf
  rw [hfl2]
  exact hid

/-- Witness for C9 at a concrete state: a second reconciliation of a
deletion-plus-append state reproduces the first one exactly, and the second
(failing) flush leaves the sink header where the first left it. -/
theorem c9_reconcile_idempotent_witness :
    (canonKeys [(("X"), [("a"), ("c")])] ∧ keysNodup [(("X"), [("a"), ("c")])] ∧
      canonKeys [(("X"), [("a")]), (("Y"), [("q")])]) ∧
    reconcileHeader [(("X"), [("a"), ("c")])]
        (reconcileHeader [(("X"), [("a"), ("c")])] [(("X"), [("a")]), (("Y"), [("q")])]) =
      reconcileHeader [(("X"), [("a"), ("c")])] [(("X"), [("a")]), (("Y"), [("q")])] := by
  refine ⟨⟨by decide, by decide, by decide⟩, ?_⟩
  exact (c9_reconcile_idempotent
    { header := [(("X"), [("a"), ("c")])], body := [], statusCode := 0, closed := false }
    { header := [(("X"), [("a")]), (("Y"), [("q")])], status := [], body := [],
      failWrite := some 3 }
    3 (by decide) (by decide) (by decide) (by decide) (by decide)).1

/-- Claim C10: `WriteHeader` has no closed-state precondition and cannot
fail: for every buffer state, closed ones included, it overwrites only the
stored status code, preserves every other field, and performs no sink
interaction. -/
theorem c10_writeheader_unconditional (rw : ResponseWriterBuffer) (c : Int) (s : Sink) :
    (rw.WriteHeader c).statusCode = c ∧
    (rw.WriteHeader c).closed = rw.closed ∧
    (rw.WriteHeader c).header = rw.header ∧
    (rw.WriteHeader c).body = rw.body ∧
    applyOp (rw, s) (Op.writeHeader c) = (rw.WriteHeader c, s) :=
  ⟨rfl, rfl, rfl, rfl, rfl⟩
